import Mathlib

/-!
Shallow embedding of the memory-introspection core in src/src/runtime.rs:
the Address type with its addition operations, the Process handle with its
typed read operations and pointer-path resolvers, the Drop implementation
that detaches, and the timer state mapping.

The host primitives declared in the sys module (process_read,
process_is_open, process_get_module_address, process_scan_signature,
process_detach) are foreign functions; they are modelled by a Host
structure holding one function per primitive, indexed by the process id
the source passes as first argument.  Machine integers are modelled as
Nat with explicit reduction modulo 2^64 or 2^32 where the source performs
wrapping arithmetic; a u32 widened with an `as u64` cast is the identity
injection on Nat (zero extension).  Every fallible operation is
instrumented with the list of host calls it issues, so that claims about
the number and order of foreign reads and detach calls are statable.
-/

namespace Asr

/-- Model of the u64 modulus. -/
def U64MOD : Nat := 2 ^ 64

/-- Model of the u32 modulus. -/
def U32MOD : Nat := 2 ^ 32

/-- Model of struct Address(pub u64): an opaque 64-bit address value. -/
structure Address where
  val : Nat
deriving DecidableEq, Repr

/-- Model of pub struct Error: the single opaque failure marker, no payload. -/
inductive Error where
  | mk
deriving DecidableEq, Repr

/-- Model of pub struct Process(ProcessId): the handle holds only the
host-assigned session identifier, no other state (in particular no cached
liveness flag). -/
structure Process where
  pid : Nat
deriving DecidableEq, Repr

/-- One call issued across the foreign-function boundary that this
development tracks: a process_read invocation (with the address and byte
length passed to the host) or a process_detach invocation. -/
inductive HostCall where
  | readCall (address : Nat) (len : Nat)
  | detachCall
deriving DecidableEq, Repr

/-- The host side of one attachment session: one function per host
primitive the source declares in the sys module, indexed by the process
id the source passes as first argument.  mem gives the byte the host
would copy from each address of the target address space; read_ok tells
whether a process_read at a given address and length reports success. -/
structure Host where
  mem : Nat → Nat → Nat
  read_ok : Nat → Nat → Nat → Bool
  process_is_open : Nat → Bool
  process_get_module_address : Nat → List Nat → Option { n : Nat // 0 < n }
  process_scan_signature : Nat → List Nat → Option { n : Nat // 0 < n }

/-- The bytes a successful process_read of len bytes at address copies out
of the host: byte i is the target memory content at address + i. -/
def hostBytes (h : Host) (pid address len : Nat) : List Nat :=
  (List.range len).map fun i => h.mem pid (address + i) % 256

/-- Model of the bytemuck::Pod bound: a plain-old-data type is a size (the
value of size_of) together with a total reinterpretation of that many raw
bytes as a value.  Totality mirrors the Pod contract that every bit
pattern is a valid value. -/
structure Pod (T : Type) where
  size : Nat
  decode : List Nat → T

/-- Little-endian reinterpretation of a byte list as an unsigned integer,
as the wasm target the source compiles for lays out u32 and u64. -/
def leDecode : List Nat → Nat
  | [] => 0
  | b :: rest => b % 256 + 256 * leDecode rest

/-- u64 as a plain-old-data type: 8 bytes, little-endian value. -/
def podU64 : Pod Nat := ⟨8, leDecode⟩

/-- u32 as a plain-old-data type: 4 bytes, little-endian value. -/
def podU32 : Pod Nat := ⟨4, leDecode⟩

/-- Model of Process::read_into_buf: one process_read call for the whole
buffer; Ok with the copied bytes when the host reports success, Err
otherwise.  The buffer the source mutates in place is modelled by
returning its final contents. -/
def Process.read_into_buf (p : Process) (h : Host) (address len : Nat) :
    List HostCall × Except Error (List Nat) :=
  ([HostCall.readCall address len],
    if h.read_ok p.pid address len then
      Except.ok (hostBytes h p.pid address len)
    else
      Except.error Error.mk)

/-- Model of Process::read::<T>: read_into_buf for size_of::<T>() bytes,
and only on success reinterpret the bytes as T (assume_init); on failure
the error propagates and no value of type T is produced. -/
def Process.read {T : Type} (p : Process) (po : Pod T) (h : Host) (address : Nat) :
    List HostCall × Except Error T :=
  let b := p.read_into_buf h address po.size
  (b.1, Except.map po.decode b.2)

/-- Model of Process::read_into_slice::<T>: one read_into_buf of
count * size_of::<T>() bytes (bytemuck::cast_slice_mut exposes the slice
as that many bytes), reinterpreted element-wise on success. -/
def Process.read_into_slice {T : Type} (p : Process) (po : Pod T) (h : Host)
    (address count : Nat) : List HostCall × Except Error (List T) :=
  let b := p.read_into_buf h address (count * po.size)
  (b.1, Except.map
    (fun bytes => (List.range count).map fun i =>
      po.decode ((bytes.drop (i * po.size)).take po.size))
    b.2)

/-- The intermediate loop of Process::read_pointer_path64: for each offset
of the remaining prefix, read a u64 at address.wrapping_add(offset) and
continue from the value read; the first failing read aborts the loop. -/
def pathLoop64 (p : Process) (h : Host) (address : Nat) :
    List Nat → List HostCall × Except Error Nat
  | [] => ([], Except.ok address)
  | off :: rest =>
    let r1 := p.read podU64 h ((address + off) % U64MOD)
    match r1.2 with
    | Except.error e => (r1.1, Except.error e)
    | Except.ok v =>
      let r2 := pathLoop64 p h v rest
      (r1.1 ++ r2.1, r2.2)

/-- Model of Process::read_pointer_path64::<T>: split_last fails with Error
on an empty path; otherwise run the intermediate u64 loop over all but the
last offset and finish with one typed read of T at the last computed
address plus the last offset (wrapping). -/
def Process.read_pointer_path64 {T : Type} (p : Process) (po : Pod T) (h : Host)
    (address : Nat) (path : List Nat) : List HostCall × Except Error T :=
  match path.getLast? with
  | none => ([], Except.error Error.mk)
  | some last =>
    let r1 := pathLoop64 p h address path.dropLast
    match r1.2 with
    | Except.error e => (r1.1, Except.error e)
    | Except.ok a =>
      let r2 := p.read po h ((a + last) % U64MOD)
      (r1.1 ++ r2.1, r2.2)

/-- The intermediate loop of Process::read_pointer_path32: as pathLoop64
but with 32-bit wrapping addition, a u32 typed read at each step, and the
32-bit sum widened by the `as u64` cast (the identity on Nat, i.e. zero
extension) for the address passed to the host. -/
def pathLoop32 (p : Process) (h : Host) (address : Nat) :
    List Nat → List HostCall × Except Error Nat
  | [] => ([], Except.ok address)
  | off :: rest =>
    let r1 := p.read podU32 h ((address + off) % U32MOD)
    match r1.2 with
    | Except.error e => (r1.1, Except.error e)
    | Except.ok v =>
      let r2 := pathLoop32 p h v rest
      (r1.1 ++ r2.1, r2.2)

/-- Model of Process::read_pointer_path32::<T>: as read_pointer_path64 but
in 32-bit arithmetic, with the final 32-bit sum widened by `as u64` (zero
extension, the identity on Nat) for the terminal typed read of T. -/
def Process.read_pointer_path32 {T : Type} (p : Process) (po : Pod T) (h : Host)
    (address : Nat) (path : List Nat) : List HostCall × Except Error T :=
  match path.getLast? with
  | none => ([], Except.error Error.mk)
  | some last =>
    let r1 := pathLoop32 p h address path.dropLast
    match r1.2 with
    | Except.error e => (r1.1, Except.error e)
    | Except.ok a =>
      let r2 := p.read po h ((a + last) % U32MOD)
      (r1.1 ++ r2.1, r2.2)

/-- Model of Process::is_open: delegate directly to the host liveness
primitive for this handle, no local state consulted or updated. -/
def Process.is_open (p : Process) (h : Host) : Bool :=
  h.process_is_open p.pid

/-- Model of Process::get_module: Ok with the host-reported address when
process_get_module_address returns one, Err otherwise. -/
def Process.get_module (p : Process) (h : Host) (name : List Nat) :
    Except Error Address :=
  match h.process_get_module_address p.pid name with
  | some a => Except.ok ⟨a.val⟩
  | none => Except.error Error.mk

/-- Model of Process::scan_signature: Ok with the host-reported first
match address when process_scan_signature returns one, Err otherwise. -/
def Process.scan_signature (p : Process) (h : Host) (signature : List Nat) :
    Except Error Address :=
  match h.process_scan_signature p.pid signature with
  | some a => Except.ok ⟨a.val⟩
  | none => Except.error Error.mk

/-- Model of the Drop implementation for Process: dropping the handle
issues exactly the single host call process_detach and nothing else. -/
def Process.dropTrace : List HostCall :=
  [HostCall.detachCall]

/-- One read operation a caller can issue through a Process handle during
its lifetime. -/
inductive ReadOp where
  | rawRead (address : Nat)
  | intoSlice (address count : Nat)
  | path64 (base : Nat) (path : List Nat)
  | path32 (base : Nat) (path : List Nat)
deriving DecidableEq, Repr

/-- The host calls one read operation issues (its result is discarded:
only the foreign-call trace matters for the lifecycle claims). -/
def runReadOp {T : Type} (p : Process) (po : Pod T) (h : Host) : ReadOp → List HostCall
  | ReadOp.rawRead address => (p.read po h address).1
  | ReadOp.intoSlice address count => (p.read_into_slice po h address count).1
  | ReadOp.path64 base path => (p.read_pointer_path64 po h base path).1
  | ReadOp.path32 base path => (p.read_pointer_path32 po h base path).1

/-- The full foreign-call trace of one Process handle scope under the Rust
ownership semantics: the calls of every read operation attempted through
the handle (each against the host state current at that call), followed by
the Drop trace issued exactly when the handle goes out of scope. -/
def scopeTrace {T : Type} (p : Process) (po : Pod T) (ops : List (Host × ReadOp)) :
    List HostCall :=
  (ops.map fun e => runReadOp p po e.1 e.2).flatten ++ Process.dropTrace

/-- Whether a host call is a process_detach invocation. -/
def HostCall.isDetach : HostCall → Bool
  | HostCall.detachCall => true
  | HostCall.readCall _ _ => false

/-- Number of process_detach invocations in a trace. -/
def detachCount (tr : List HostCall) : Nat :=
  tr.countP HostCall.isDetach

/-- Model of impl Add of u32 for Address: the offset is widened with an
`as u64` cast (zero extension, the identity on a Nat below 2^32) and added
to the 64-bit address value with the plain + operator — not wrapping_add,
which the same source file uses deliberately in the pointer-path
resolvers.  In Rust, u64 overflow on plain + is a program error: builds
with overflow checks (the default for debug and test profiles) panic, so
the sum is only defined below 2^64; the overflow fault path is modelled as
none. -/
def Address.addU32 (a : Address) (rhs : Nat) : Option Address :=
  if a.val + rhs < U64MOD then some ⟨a.val + rhs⟩ else none

/-- Model of impl Add of u64 for Address: the plain, checked + on the two
u64 values, as for `Address.addU32`; the overflow fault path is modelled
as none. -/
def Address.addU64 (a : Address) (rhs : Nat) : Option Address :=
  if a.val + rhs < U64MOD then some ⟨a.val + rhs⟩ else none

/-- The 64-bit pointer-path algorithm exactly as the specification
describes it: an empty path fails at once with no read; a path of exactly
one offset performs only the terminal typed read of T at base plus that
offset (wrapping, 64-bit); a longer path first reads a pointer-width
64-bit integer at address plus the first offset (wrapping, 64-bit),
replaces the address by the value read, and recurses on the remaining
offsets, aborting at the first failing read. -/
def specPointerPath64 {T : Type} (p : Process) (po : Pod T) (h : Host) :
    Nat → List Nat → List HostCall × Except Error T
  | _, [] => ([], Except.error Error.mk)
  | address, [last] => p.read po h ((address + last) % U64MOD)
  | address, off :: next :: rest =>
    let r1 := p.read podU64 h ((address + off) % U64MOD)
    match r1.2 with
    | Except.error e => (r1.1, Except.error e)
    | Except.ok v =>
      let r2 := specPointerPath64 p po h v (next :: rest)
      (r1.1 ++ r2.1, r2.2)

/-- Zero extension of a 32-bit value into the 64-bit address space, as the
specification words it for the 32-bit pointer-path variant. -/
def zeroExtend32 (x : Nat) : Nat :=
  x % U32MOD

/-- The 32-bit pointer-path algorithm exactly as the specification
describes it: all address arithmetic is 32-bit wrapping addition, each
intermediate pointer value is read as a 32-bit integer, and every computed
32-bit address is widened by zero extension to the full 64-bit address
space only for the foreign-process read call. -/
def specPointerPath32 {T : Type} (p : Process) (po : Pod T) (h : Host) :
    Nat → List Nat → List HostCall × Except Error T
  | _, [] => ([], Except.error Error.mk)
  | address, [last] => p.read po h (zeroExtend32 ((address + last) % U32MOD))
  | address, off :: next :: rest =>
    let r1 := p.read podU32 h (zeroExtend32 ((address + off) % U32MOD))
    match r1.2 with
    | Except.error e => (r1.1, Except.error e)
    | Except.ok v =>
      let r2 := specPointerPath32 p po h v (next :: rest)
      (r1.1 ++ r2.1, r2.2)

namespace timer

/-- Model of the public timer::TimerState enumeration. -/
inductive TimerState where
  | notRunning
  | running
  | paused
  | ended
deriving DecidableEq, Repr

/-- Model of timer::state: match the raw sys::TimerState value returned by
timer_get_state against the four named constants, in the order of the
source match (NOT_RUNNING = 0, PAUSED = 2, RUNNING = 1, ENDED = 3); every
other value reaches core::hint::unreachable_unchecked, i.e. has no defined
result, modelled as none. -/
def state (raw : Nat) : Option TimerState :=
  if raw = 0 then some TimerState.notRunning
  else if raw = 2 then some TimerState.paused
  else if raw = 1 then some TimerState.running
  else if raw = 3 then some TimerState.ended
  else none

end timer

deriving instance DecidableEq for Except

/-- A host on which every read succeeds, memory is all zero bytes, the
process is live, and module and signature lookups resolve to 0x400000. -/
def zeroHost : Host where
  mem := fun _ _ => 0
  read_ok := fun _ _ _ => true
  process_is_open := fun _ => true
  process_get_module_address := fun _ _ => some ⟨4194304, by decide⟩
  process_scan_signature := fun _ _ => some ⟨4194304, by decide⟩

/-- A host on which memory is all 0x01 bytes, only reads at address 0
succeed, the process is dead, and module and signature lookups fail. -/
def failHost : Host where
  mem := fun _ _ => 1
  read_ok := fun _ addr _ => addr == 0
  process_is_open := fun _ => false
  process_get_module_address := fun _ _ => none
  process_scan_signature := fun _ _ => none

lemma read_fst {T : Type} (p : Process) (po : Pod T) (h : Host) (address : Nat) :
    (p.read po h address).1 = [HostCall.readCall address po.size] :=
  rfl

lemma read_snd_ok_iff {T : Type} (p : Process) (po : Pod T) (h : Host)
    (address : Nat) (t : T) :
    (p.read po h address).2 = Except.ok t ↔
      (h.read_ok p.pid address po.size = true ∧
        t = po.decode (hostBytes h p.pid address po.size)) := by
  cases hb : h.read_ok p.pid address po.size <;>
    simp [Process.read, Process.read_into_buf, hb, Except.map, eq_comm]

lemma read_snd_error {T : Type} (p : Process) (po : Pod T) (h : Host)
    (address : Nat) (hf : h.read_ok p.pid address po.size = false) :
    (p.read po h address).2 = Except.error Error.mk := by
  simp [Process.read, Process.read_into_buf, hf, Except.map]

lemma pathLoop64_len (p : Process) (h : Host) :
    ∀ (l : List Nat) (a : Nat), ((pathLoop64 p h a l).1).length ≤ l.length := by
  intro l
  induction l with
  | nil => intro a; simp [pathLoop64]
  | cons off rest ih =>
    intro a
    cases hres : (p.read podU64 h ((a + off) % U64MOD)).2 with
    | error e =>
      simp [pathLoop64, hres, read_fst]
    | ok v =>
      have := ih v
      simp only [pathLoop64, hres, read_fst, List.length_append,
        List.length_singleton, List.length_cons, List.length_nil]
      omega

lemma pathLoop64_ok_len (p : Process) (h : Host) :
    ∀ (l : List Nat) (a b : Nat), (pathLoop64 p h a l).2 = Except.ok b →
      ((pathLoop64 p h a l).1).length = l.length := by
  intro l
  induction l with
  | nil => intro a b _; simp [pathLoop64]
  | cons off rest ih =>
    intro a b hok
    cases hres : (p.read podU64 h ((a + off) % U64MOD)).2 with
    | error e =>
      rw [pathLoop64] at hok
      simp [hres] at hok
    | ok v =>
      rw [pathLoop64] at hok
      simp only [hres] at hok
      have := ih v b hok
      simp only [pathLoop64, hres, read_fst, List.length_append,
        List.length_singleton, List.length_cons, List.length_nil]
      omega

lemma pp64_decomp {T : Type} (p : Process) (po : Pod T) (h : Host)
    (a last : Nat) (init : List Nat) :
    p.read_pointer_path64 po h a (init ++ [last]) =
      (let r1 := pathLoop64 p h a init
       match r1.2 with
       | Except.error e => (r1.1, Except.error e)
       | Except.ok b =>
         let r2 := p.read po h ((b + last) % U64MOD)
         (r1.1 ++ r2.1, r2.2)) := by
  simp only [Process.read_pointer_path64, List.getLast?_concat, List.dropLast_concat]

lemma spec64_cons {T : Type} (p : Process) (po : Pod T) (h : Host)
    (a x : Nat) (l : List Nat) (hl : l ≠ []) :
    specPointerPath64 p po h a (x :: l) =
      (let r1 := p.read podU64 h ((a + x) % U64MOD)
       match r1.2 with
       | Except.error e => (r1.1, Except.error e)
       | Except.ok v =>
         let r2 := specPointerPath64 p po h v l
         (r1.1 ++ r2.1, r2.2)) := by
  cases l with
  | nil => exact absurd rfl hl
  | cons y ys => rfl

lemma spec64_decomp {T : Type} (p : Process) (po : Pod T) (h : Host) :
    ∀ (init : List Nat) (a last : Nat),
      specPointerPath64 p po h a (init ++ [last]) =
        (let r1 := pathLoop64 p h a init
         match r1.2 with
         | Except.error e => (r1.1, Except.error e)
         | Except.ok b =>
           let r2 := p.read po h ((b + last) % U64MOD)
           (r1.1 ++ r2.1, r2.2)) := by
  intro init
  induction init with
  | nil =>
    intro a last
    simp [specPointerPath64, pathLoop64]
  | cons x init2 ih =>
    intro a last
    rw [List.cons_append, spec64_cons p po h a x (init2 ++ [last]) (by simp)]
    cases hres : (p.read podU64 h ((a + x) % U64MOD)).2 with
    | error e =>
      simp [pathLoop64, hres]
    | ok v =>
      cases hres2 : (pathLoop64 p h v init2).2 with
      | error e2 =>
        simp [pathLoop64, hres, hres2, ih v last]
      | ok b =>
        simp [pathLoop64, hres, hres2, ih v last, List.append_assoc]

lemma pp32_decomp {T : Type} (p : Process) (po : Pod T) (h : Host)
    (a last : Nat) (init : List Nat) :
    p.read_pointer_path32 po h a (init ++ [last]) =
      (let r1 := pathLoop32 p h a init
       match r1.2 with
       | Except.error e => (r1.1, Except.error e)
       | Except.ok b =>
         let r2 := p.read po h ((b + last) % U32MOD)
         (r1.1 ++ r2.1, r2.2)) := by
  simp only [Process.read_pointer_path32, List.getLast?_concat, List.dropLast_concat]

lemma spec32_cons {T : Type} (p : Process) (po : Pod T) (h : Host)
    (a x : Nat) (l : List Nat) (hl : l ≠ []) :
    specPointerPath32 p po h a (x :: l) =
      (let r1 := p.read podU32 h (zeroExtend32 ((a + x) % U32MOD))
       match r1.2 with
       | Except.error e => (r1.1, Except.error e)
       | Except.ok v =>
         let r2 := specPointerPath32 p po h v l
         (r1.1 ++ r2.1, r2.2)) := by
  cases l with
  | nil => exact absurd rfl hl
  | cons y ys => rfl

lemma zeroExtend32_mod (x : Nat) : zeroExtend32 (x % U32MOD) = x % U32MOD := by
  have h32 : 0 < U32MOD := by decide
  simp [zeroExtend32, Nat.mod_mod_of_dvd, Nat.mod_self, Nat.mod_eq_of_lt (Nat.mod_lt x h32)]

lemma spec32_decomp {T : Type} (p : Process) (po : Pod T) (h : Host) :
    ∀ (init : List Nat) (a last : Nat),
      specPointerPath32 p po h a (init ++ [last]) =
        (let r1 := pathLoop32 p h a init
         match r1.2 with
         | Except.error e => (r1.1, Except.error e)
         | Except.ok b =>
           let r2 := p.read po h ((b + last) % U32MOD)
           (r1.1 ++ r2.1, r2.2)) := by
  intro init
  induction init with
  | nil =>
    intro a last
    simp [specPointerPath32, pathLoop32, zeroExtend32_mod]
  | cons x init2 ih =>
    intro a last
    rw [List.cons_append, spec32_cons p po h a x (init2 ++ [last]) (by simp),
      zeroExtend32_mod]
    cases hres : (p.read podU32 h ((a + x) % U32MOD)).2 with
    | error e =>
      simp [pathLoop32, hres]
    | ok v =>
      cases hres2 : (pathLoop32 p h v init2).2 with
      | error e2 =>
        simp [pathLoop32, hres, hres2, ih v last]
      | ok b =>
        simp [pathLoop32, hres, hres2, ih v last, List.append_assoc]

lemma pathLoop32_addr (p : Process) (h : Host) :
    ∀ (l : List Nat) (a ad ln : Nat),
      HostCall.readCall ad ln ∈ (pathLoop32 p h a l).1 → ad < U32MOD := by
  intro l
  induction l with
  | nil => intro a ad ln hmem; simp [pathLoop32] at hmem
  | cons off rest ih =>
    intro a ad ln hmem
    have h32 : 0 < U32MOD := by decide
    cases hres : (p.read podU32 h ((a + off) % U32MOD)).2 with
    | error e =>
      rw [pathLoop32] at hmem
      simp only [hres, read_fst, List.mem_singleton] at hmem
      cases hmem
      exact Nat.mod_lt _ h32
    | ok v =>
      rw [pathLoop32] at hmem
      simp only [hres, read_fst, List.mem_append, List.mem_singleton] at hmem
      rcases hmem with hmem | hmem
      · cases hmem
        exact Nat.mod_lt _ h32
      · exact ih v ad ln hmem

lemma detachCount_append (l1 l2 : List HostCall) :
    detachCount (l1 ++ l2) = detachCount l1 + detachCount l2 :=
  List.countP_append _ _ _

lemma read_no_detach {T : Type} (p : Process) (po : Pod T) (h : Host) (address : Nat) :
    detachCount (p.read po h address).1 = 0 :=
  rfl

lemma read_into_slice_no_detach {T : Type} (p : Process) (po : Pod T) (h : Host)
    (address count : Nat) :
    detachCount (p.read_into_slice po h address count).1 = 0 :=
  rfl

lemma pathLoop64_no_detach (p : Process) (h : Host) :
    ∀ (l : List Nat) (a : Nat), detachCount (pathLoop64 p h a l).1 = 0 := by
  intro l
  induction l with
  | nil => intro a; rfl
  | cons off rest ih =>
    intro a
    cases hres : (p.read podU64 h ((a + off) % U64MOD)).2 with
    | error e => simp [pathLoop64, hres, read_no_detach]
    | ok v =>
      simp only [pathLoop64, hres, detachCount_append, read_no_detach, ih v]

lemma pathLoop32_no_detach (p : Process) (h : Host) :
    ∀ (l : List Nat) (a : Nat), detachCount (pathLoop32 p h a l).1 = 0 := by
  intro l
  induction l with
  | nil => intro a; rfl
  | cons off rest ih =>
    intro a
    cases hres : (p.read podU32 h ((a + off) % U32MOD)).2 with
    | error e => simp [pathLoop32, hres, read_no_detach]
    | ok v =>
      simp only [pathLoop32, hres, detachCount_append, read_no_detach, ih v]

lemma pp64_no_detach {T : Type} (p : Process) (po : Pod T) (h : Host)
    (a : Nat) (path : List Nat) :
    detachCount (p.read_pointer_path64 po h a path).1 = 0 := by
  cases hL : path.getLast? with
  | none => simp [Process.read_pointer_path64, hL, detachCount]
  | some last =>
    cases hres : (pathLoop64 p h a path.dropLast).2 with
    | error e =>
      simp [Process.read_pointer_path64, hL, hres, pathLoop64_no_detach]
    | ok b =>
      simp [Process.read_pointer_path64, hL, hres, detachCount_append,
        pathLoop64_no_detach, read_no_detach]

lemma pp32_no_detach {T : Type} (p : Process) (po : Pod T) (h : Host)
    (a : Nat) (path : List Nat) :
    detachCount (p.read_pointer_path32 po h a path).1 = 0 := by
  cases hL : path.getLast? with
  | none => simp [Process.read_pointer_path32, hL, detachCount]
  | some last =>
    cases hres : (pathLoop32 p h a path.dropLast).2 with
    | error e =>
      simp [Process.read_pointer_path32, hL, hres, pathLoop32_no_detach]
    | ok b =>
      simp [Process.read_pointer_path32, hL, hres, detachCount_append,
        pathLoop32_no_detach, read_no_detach]

lemma runReadOp_no_detach {T : Type} (p : Process) (po : Pod T) (h : Host)
    (op : ReadOp) : detachCount (runReadOp p po h op) = 0 := by
  cases op with
  | rawRead address => exact read_no_detach p po h address
  | intoSlice address count => exact read_into_slice_no_detach p po h address count
  | path64 base path => exact pp64_no_detach p po h base path
  | path32 base path => exact pp32_no_detach p po h base path

lemma pathLoop32_len (p : Process) (h : Host) :
    ∀ (l : List Nat) (a : Nat), ((pathLoop32 p h a l).1).length ≤ l.length := by
  intro l
  induction l with
  | nil => intro a; simp [pathLoop32]
  | cons off rest ih =>
    intro a
    cases hres : (p.read podU32 h ((a + off) % U32MOD)).2 with
    | error e =>
      simp [pathLoop32, hres, read_fst]
    | ok v =>
      have := ih v
      simp only [pathLoop32, hres, read_fst, List.length_append,
        List.length_singleton, List.length_cons, List.length_nil]
      omega

lemma pathLoop32_ok_len (p : Process) (h : Host) :
    ∀ (l : List Nat) (a b : Nat), (pathLoop32 p h a l).2 = Except.ok b →
      ((pathLoop32 p h a l).1).length = l.length := by
  intro l
  induction l with
  | nil => intro a b _; simp [pathLoop32]
  | cons off rest ih =>
    intro a b hok
    cases hres : (p.read podU32 h ((a + off) % U32MOD)).2 with
    | error e =>
      rw [pathLoop32] at hok
      simp [hres] at hok
    | ok v =>
      rw [pathLoop32] at hok
      simp only [hres] at hok
      have := ih v b hok
      simp only [pathLoop32, hres, read_fst, List.length_append,
        List.length_singleton, List.length_cons, List.length_nil]
      omega

/-- C1: read_pointer_path64 starts from the base address and, for each
offset except the last, computes the 64-bit wrapping sum and performs a
typed read of a pointer-width 64-bit integer there, replacing the address
with the value read; the final offset is added to the last address and one
terminal typed read of the requested type T is performed, the value of
which is returned; a path of exactly one offset skips the intermediate
loop and performs only the terminal read at base plus that offset. -/
theorem claim1_read_pointer_path64_algorithm {T : Type} (po : Pod T)
    (p : Process) (h : Host) :
    (∀ (address : Nat) (path : List Nat),
        p.read_pointer_path64 po h address path =
          specPointerPath64 p po h address path) ∧
    (∀ (address o : Nat),
        p.read_pointer_path64 po h address [o] =
          p.read po h ((address + o) % U64MOD)) := by
  constructor
  · intro a path
    cases path with
    | nil => rfl
    | cons x xs =>
      have hne : x :: xs ≠ [] := by simp
      have hdec := List.dropLast_concat_getLast hne
      calc p.read_pointer_path64 po h a (x :: xs)
          = p.read_pointer_path64 po h a
              ((x :: xs).dropLast ++ [(x :: xs).getLast hne]) := by rw [hdec]
        _ = specPointerPath64 p po h a
              ((x :: xs).dropLast ++ [(x :: xs).getLast hne]) := by
              rw [pp64_decomp, spec64_decomp]
        _ = specPointerPath64 p po h a (x :: xs) := by rw [hdec]
  · intro a o
    simpa [pathLoop64] using pp64_decomp p po h a o []

/-- C2: the claim says Address(a) + o always yields Address((a + o) mod
2^64), wrapping on overflow and never faulting.  The code does not: the
Add impls use the plain, checked + operator (unlike the wrapping_add the
same file uses in the pointer-path resolvers), so the sum is the exact one
only while it stays below 2^64, and at the claimed wraparound input
a = 2^64 - 1, o = 1 (either offset width) the addition is a program error
(overflow panic under overflow-checked builds) instead of Address(0). -/
theorem claim2_address_add_overflow_faults :
    (∀ a o : Nat, a + o < U64MOD → Address.addU64 ⟨a⟩ o = some ⟨a + o⟩) ∧
    (∀ a o : Nat, o < U32MOD → a + o < U64MOD → Address.addU32 ⟨a⟩ o = some ⟨a + o⟩) ∧
    (Address.addU64 ⟨U64MOD - 1⟩ 1 = none) ∧
    (Address.addU32 ⟨U64MOD - 1⟩ 1 = none) := by
  refine ⟨fun a o hlt => ?_, fun a o _ hlt => ?_, by decide, by decide⟩
  · simp [Address.addU64, hlt]
  · simp [Address.addU32, hlt]

/-- C2 witness: concrete in-range additions with both offset widths. -/
theorem claim2_address_add_overflow_faults_witness :
    (Address.addU64 ⟨10⟩ 5 = some ⟨15⟩) ∧
    (Address.addU32 ⟨10⟩ 5 = some ⟨15⟩) :=
  ⟨claim2_address_add_overflow_faults.1 10 5 (by decide),
   claim2_address_add_overflow_faults.2.1 10 5 (by decide) (by decide)⟩

/-- C3: for every base address and both widths, a pointer-path resolution
with an empty offset sequence fails with the opaque Error and issues no
foreign read at all (empty call trace). -/
theorem claim3_empty_path_fails {T : Type} (po : Pod T) (p : Process)
    (h : Host) (a : Nat) :
    p.read_pointer_path64 po h a [] = ([], Except.error Error.mk) ∧
    p.read_pointer_path32 po h a [] = ([], Except.error Error.mk) :=
  ⟨rfl, rfl⟩

/-- C4: a pointer-path resolution performs at most one foreign read per
already-consumed offset (for both widths), returns the whole path length
of reads only when it succeeds, always reports the single opaque Error
value on failure, and the first failing read aborts the resolution: on the
concrete host whose reads succeed only at address 0, a 3-offset path
returns the opaque error after exactly 2 reads and never issues a third. -/
theorem claim4_first_failure_short_circuits {T : Type} (po : Pod T)
    (p : Process) (h : Host) (a : Nat) (path : List Nat) :
    ((p.read_pointer_path64 po h a path).1).length ≤ path.length ∧
    (∀ t : T, (p.read_pointer_path64 po h a path).2 = Except.ok t →
        ((p.read_pointer_path64 po h a path).1).length = path.length) ∧
    ((p.read_pointer_path32 po h a path).1).length ≤ path.length ∧
    (∀ t : T, (p.read_pointer_path32 po h a path).2 = Except.ok t →
        ((p.read_pointer_path32 po h a path).1).length = path.length) ∧
    (∀ e : Error, (p.read_pointer_path64 po h a path).2 = Except.error e →
        e = Error.mk) ∧
    (((Process.mk 1).read_pointer_path64 podU64 failHost 0 [0, 0, 0]).2 =
        Except.error Error.mk ∧
      (((Process.mk 1).read_pointer_path64 podU64 failHost 0 [0, 0, 0]).1).length = 2) := by
  refine ⟨?_, ?_, ?_, ?_, fun e _ => by cases e; rfl, by decide⟩
  · cases path with
    | nil => exact Nat.le.refl
    | cons x xs =>
      have hne : x :: xs ≠ [] := by simp
      rw [← List.dropLast_concat_getLast hne, pp64_decomp]
      cases hres : (pathLoop64 p h a (x :: xs).dropLast).2 with
      | error e =>
        have := pathLoop64_len p h (x :: xs).dropLast a
        simp only [hres, List.length_append, List.length_singleton]
        omega
      | ok b =>
        have := pathLoop64_len p h (x :: xs).dropLast a
        simp only [hres, read_fst, List.length_append, List.length_singleton]
        omega
  · intro t hok
    cases path with
    | nil => simp [Process.read_pointer_path64] at hok
    | cons x xs =>
      have hne : x :: xs ≠ [] := by simp
      rw [← List.dropLast_concat_getLast hne, pp64_decomp] at hok ⊢
      cases hres : (pathLoop64 p h a (x :: xs).dropLast).2 with
      | error e => simp [hres] at hok
      | ok b =>
        have := pathLoop64_ok_len p h (x :: xs).dropLast a b hres
        simp only [hres, read_fst, List.length_append, List.length_singleton]
        omega
  · cases path with
    | nil => exact Nat.le.refl
    | cons x xs =>
      have hne : x :: xs ≠ [] := by simp
      rw [← List.dropLast_concat_getLast hne, pp32_decomp]
      cases hres : (pathLoop32 p h a (x :: xs).dropLast).2 with
      | error e =>
        have := pathLoop32_len p h (x :: xs).dropLast a
        simp only [hres, List.length_append, List.length_singleton]
        omega
      | ok b =>
        have := pathLoop32_len p h (x :: xs).dropLast a
        simp only [hres, read_fst, List.length_append, List.length_singleton]
        omega
  · intro t hok
    cases path with
    | nil => simp [Process.read_pointer_path32] at hok
    | cons x xs =>
      have hne : x :: xs ≠ [] := by simp
      rw [← List.dropLast_concat_getLast hne, pp32_decomp] at hok ⊢
      cases hres : (pathLoop32 p h a (x :: xs).dropLast).2 with
      | error e => simp [hres] at hok
      | ok b =>
        have := pathLoop32_ok_len p h (x :: xs).dropLast a b hres
        simp only [hres, read_fst, List.length_append, List.length_singleton]
        omega

/-- C4 witness: on the all-zero host a 2-offset path succeeds after
exactly 2 reads, and the failing resolution reports the opaque Error. -/
theorem claim4_first_failure_short_circuits_witness :
    ((((Process.mk 1).read_pointer_path64 podU64 zeroHost 0 [0, 0]).1).length = 2) ∧
    ((((Process.mk 1).read_pointer_path32 podU32 zeroHost 0 [0, 0]).1).length = 2) ∧
    (Error.mk = Error.mk) :=
  ⟨(claim4_first_failure_short_circuits podU64 ⟨1⟩ zeroHost 0 [0, 0]).2.1 0 (by decide),
   (claim4_first_failure_short_circuits podU32 ⟨1⟩ zeroHost 0 [0, 0]).2.2.2.1 0 (by decide),
   (claim4_first_failure_short_circuits podU64 ⟨1⟩ failHost 0 [0, 0, 0]).2.2.2.2.1
     Error.mk (by decide)⟩

/-- C5: read returns a value of T exactly when the underlying byte copy of
size_of::<T>() bytes succeeded, in which case the value is the
reinterpretation of the copied bytes, and on failure only the opaque Error
is returned (no value of T is observed); read_into_slice returns the whole
decoded sequence of exactly count elements when the copy of
count * size_of::<T>() bytes succeeded, and only the opaque Error on
failure. -/
theorem claim5_typed_reads_atomic {T : Type} (po : Pod T) (p : Process)
    (h : Host) (address count : Nat) :
    (∀ t : T, (p.read po h address).2 = Except.ok t ↔
        (h.read_ok p.pid address po.size = true ∧
          t = po.decode (hostBytes h p.pid address po.size))) ∧
    (h.read_ok p.pid address po.size = false →
        (p.read po h address).2 = Except.error Error.mk) ∧
    (∀ l : List T, (p.read_into_slice po h address count).2 = Except.ok l →
        (h.read_ok p.pid address (count * po.size) = true ∧ l.length = count)) ∧
    (h.read_ok p.pid address (count * po.size) = false →
        (p.read_into_slice po h address count).2 = Except.error Error.mk) := by
  refine ⟨fun t => read_snd_ok_iff p po h address t,
    read_snd_error p po h address, ?_, ?_⟩
  · intro l hok
    cases hb : h.read_ok p.pid address (count * po.size) with
    | false =>
      simp [Process.read_into_slice, Process.read_into_buf, hb, Except.map] at hok
    | true =>
      refine ⟨rfl, ?_⟩
      simp only [Process.read_into_slice, Process.read_into_buf, hb, if_true,
        Except.map, Except.ok.injEq] at hok
      rw [← hok]
      simp
  · intro hb
    simp [Process.read_into_slice, Process.read_into_buf, hb, Except.map]

/-- C5 witness: concrete successful and failing reads of a u64 value and
of a 3-element u64 slice. -/
theorem claim5_typed_reads_atomic_witness :
    (((Process.mk 1).read podU64 zeroHost 5).2 = Except.ok 0) ∧
    (((Process.mk 1).read podU64 failHost 5).2 = Except.error Error.mk) ∧
    (zeroHost.read_ok 1 5 24 = true ∧ ([0, 0, 0] : List Nat).length = 3) ∧
    (((Process.mk 1).read_into_slice podU64 failHost 5 3).2 = Except.error Error.mk) :=
  ⟨((claim5_typed_reads_atomic podU64 ⟨1⟩ zeroHost 5 3).1 0).mpr
      ⟨by decide, by decide⟩,
   (claim5_typed_reads_atomic podU64 ⟨1⟩ failHost 5 3).2.1 (by decide),
   (claim5_typed_reads_atomic podU64 ⟨1⟩ zeroHost 5 3).2.2.1 [0, 0, 0] (by decide),
   (claim5_typed_reads_atomic podU64 ⟨1⟩ failHost 5 3).2.2.2 (by decide)⟩

/-- C6: across the whole lifetime of a Process handle, no matter which
read operations are attempted through it, against which host states, and
how many fail, the full foreign-call trace of the scope contains exactly
one process_detach invocation, issued when the handle goes out of scope. -/
theorem claim6_detach_exactly_once {T : Type} (po : Pod T) (p : Process)
    (ops : List (Host × ReadOp)) :
    detachCount (scopeTrace p po ops) = 1 := by
  have hflat : detachCount ((ops.map fun e => runReadOp p po e.1 e.2).flatten) = 0 := by
    induction ops with
    | nil => rfl
    | cons op rest ih =>
      simp only [List.map_cons, List.flatten_cons, detachCount_append, ih,
        runReadOp_no_detach]
  rw [scopeTrace, detachCount_append, hflat]
  rfl

/-- C7: read_pointer_path32 computes exactly the specification algorithm
that works entirely in 32-bit wrapping address arithmetic, reads each
intermediate pointer value as a 32-bit integer, and widens every computed
32-bit address by zero extension only for the foreign read call; in
particular every address passed to a foreign read stays below 2^32. -/
theorem claim7_path32_32bit_arithmetic {T : Type} (po : Pod T) (p : Process)
    (h : Host) :
    (∀ (address : Nat) (path : List Nat),
        p.read_pointer_path32 po h address path =
          specPointerPath32 p po h address path) ∧
    (∀ (address : Nat) (path : List Nat) (ad ln : Nat),
        HostCall.readCall ad ln ∈ (p.read_pointer_path32 po h address path).1 →
          ad < U32MOD) := by
  constructor
  · intro a path
    cases path with
    | nil => rfl
    | cons x xs =>
      have hne : x :: xs ≠ [] := by simp
      have hdec := List.dropLast_concat_getLast hne
      calc p.read_pointer_path32 po h a (x :: xs)
          = p.read_pointer_path32 po h a
              ((x :: xs).dropLast ++ [(x :: xs).getLast hne]) := by rw [hdec]
        _ = specPointerPath32 p po h a
              ((x :: xs).dropLast ++ [(x :: xs).getLast hne]) := by
              rw [pp32_decomp, spec32_decomp]
        _ = specPointerPath32 p po h a (x :: xs) := by rw [hdec]
  · intro a path ad ln hmem
    have h32 : 0 < U32MOD := by decide
    cases path with
    | nil => simp [Process.read_pointer_path32] at hmem
    | cons x xs =>
      have hne : x :: xs ≠ [] := by simp
      rw [← List.dropLast_concat_getLast hne, pp32_decomp] at hmem
      cases hres : (pathLoop32 p h a (x :: xs).dropLast).2 with
      | error e =>
        simp only [hres] at hmem
        exact pathLoop32_addr p h (x :: xs).dropLast a ad ln hmem
      | ok b =>
        simp only [hres, read_fst, List.mem_append, List.mem_singleton] at hmem
        rcases hmem with hmem | hmem
        · exact pathLoop32_addr p h (x :: xs).dropLast a ad ln hmem
        · cases hmem
          exact Nat.mod_lt _ h32

/-- C7 witness: the one foreign read of a concrete singleton 32-bit path
is at an address below 2^32. -/
theorem claim7_path32_32bit_arithmetic_witness : (0 : Nat) < U32MOD :=
  (claim7_path32_32bit_arithmetic podU32 ⟨1⟩ zeroHost).2 0 [0] 0 4 (by decide)

/-- C8: get_module and scan_signature return Ok with exactly the
host-reported address (which is non-zero by the host contract) when the
host primitive returns a match, and the opaque Error exactly when the host
reports none; both functions are total, so no other outcome or panic is
possible. -/
theorem claim8_module_and_signature_lookup (p : Process) (h : Host)
    (name sig : List Nat) :
    (∀ a : { n : Nat // 0 < n }, h.process_get_module_address p.pid name = some a →
        (p.get_module h name = Except.ok ⟨a.val⟩ ∧ a.val ≠ 0)) ∧
    (h.process_get_module_address p.pid name = none →
        p.get_module h name = Except.error Error.mk) ∧
    (∀ a : { n : Nat // 0 < n }, h.process_scan_signature p.pid sig = some a →
        (p.scan_signature h sig = Except.ok ⟨a.val⟩ ∧ a.val ≠ 0)) ∧
    (h.process_scan_signature p.pid sig = none →
        p.scan_signature h sig = Except.error Error.mk) := by
  refine ⟨?_, ?_, ?_, ?_⟩
  · intro a ha
    exact ⟨by simp [Process.get_module, ha], a.2.ne'⟩
  · intro ha
    simp [Process.get_module, ha]
  · intro a ha
    exact ⟨by simp [Process.scan_signature, ha], a.2.ne'⟩
  · intro ha
    simp [Process.scan_signature, ha]

/-- C8 witness: concrete module and signature lookups on a host that
reports address 0x400000 and on a host that reports no match. -/
theorem claim8_module_and_signature_lookup_witness :
    ((Process.mk 1).get_module zeroHost [] = Except.ok ⟨4194304⟩ ∧ 4194304 ≠ 0) ∧
    ((Process.mk 1).get_module failHost [] = Except.error Error.mk) ∧
    ((Process.mk 1).scan_signature zeroHost [] = Except.ok ⟨4194304⟩ ∧ 4194304 ≠ 0) ∧
    ((Process.mk 1).scan_signature failHost [] = Except.error Error.mk) :=
  ⟨(claim8_module_and_signature_lookup ⟨1⟩ zeroHost [] []).1 ⟨4194304, by decide⟩ rfl,
   (claim8_module_and_signature_lookup ⟨1⟩ failHost [] []).2.1 rfl,
   (claim8_module_and_signature_lookup ⟨1⟩ zeroHost [] []).2.2.1 ⟨4194304, by decide⟩ rfl,
   (claim8_module_and_signature_lookup ⟨1⟩ failHost [] []).2.2.2 rfl⟩

/-- C9: is_open delegates directly to the host liveness primitive for the
handle and returns exactly the boolean the host reports at call time; two
consecutive calls against host states whose liveness flag flips from true
to false observe true then false (no caching). -/
theorem claim9_is_open_no_caching (p : Process) (h1 h2 : Host) :
    (p.is_open h1 = h1.process_is_open p.pid) ∧
    (h1.process_is_open p.pid = true → h2.process_is_open p.pid = false →
      (p.is_open h1 = true ∧ p.is_open h2 = false)) :=
  ⟨rfl, fun ha hb => ⟨ha, hb⟩⟩

/-- C9 witness: against a live host then a dead host, the same handle
observes true then false. -/
theorem claim9_is_open_no_caching_witness :
    (Process.mk 1).is_open zeroHost = true ∧ (Process.mk 1).is_open failHost = false :=
  (claim9_is_open_no_caching ⟨1⟩ zeroHost failHost).2 rfl rfl

/-- C10: the timer state mapping sends the host-reported raw values
0, 1, 2, 3 to NotRunning, Running, Paused, Ended respectively, and any
other raw value reaches the branch declared unreachable, i.e. has no
defined result. -/
theorem claim10_timer_state_mapping :
    timer.state 0 = some timer.TimerState.notRunning ∧
    timer.state 1 = some timer.TimerState.running ∧
    timer.state 2 = some timer.TimerState.paused ∧
    timer.state 3 = some timer.TimerState.ended ∧
    (∀ raw : Nat, 4 ≤ raw → timer.state raw = none) := by
  refine ⟨rfl, rfl, rfl, rfl, ?_⟩
  intro raw hraw
  rw [timer.state, if_neg (by omega), if_neg (by omega), if_neg (by omega),
    if_neg (by omega)]

/-- C10 witness: a concrete out-of-range host value has no defined
mapping. -/
theorem claim10_timer_state_mapping_witness : timer.state 9 = none :=
  claim10_timer_state_mapping.2.2.2.2 9 (by decide)

end Asr
